import Mathlib

/-!
Shallow embedding of the free-chat-backend message relay (src/index.js).

The source is a Socket.IO server holding three pieces of state:
a bounded in-memory `messageBuffer` with count- and age-based eviction
(`addToBuffer`, `cleanOldMessages`, `getRecentMessages`), a connection
handler that broadcasts the live user count and pushes a recent-history
snapshot, and a `send_message` handler that inserts into the buffer,
fans the message out and acknowledges the sender.

Time is modelled as `Int` milliseconds (JS `Date.now()` values; JS number
subtraction can go negative, which `Int` reproduces and `Nat` would not).
Each call to `Date.now()` in the source becomes an explicit time
parameter; clock monotonicity is a hypothesis where a claim needs it.
-/

namespace FreeChat

/-- A client message record. In the source, `data` is an application
object carrying a client-chosen identifier `id` and display content;
`addToBuffer` spreads it into a copy and adds a `timestamp` field, so the
plain record itself carries no server timestamp. -/
structure Message where
  id : Int
  content : String
deriving DecidableEq, Repr

/-- The buffered copy built by `addToBuffer`:
`{ ...message, timestamp: Date.now() }`. -/
structure BufferedMessage where
  msg : Message
  timestamp : Int
deriving DecidableEq, Repr

/-- `const MAX_BUFFER_SIZE = 50;` (src/index.js:31) -/
def MAX_BUFFER_SIZE : Nat := 50

/-- `const MESSAGE_RETENTION_MS = 60 * 60 * 1000;` (src/index.js:32) -/
def MESSAGE_RETENTION_MS : Int := 60 * 60 * 1000

/-- `cleanOldMessages` (src/index.js:54-61): keep exactly the entries with
`(now - msg.timestamp) < MESSAGE_RETENTION_MS`. -/
def cleanOldMessages (now : Int) (buffer : List BufferedMessage) :
    List BufferedMessage :=
  buffer.filter (fun m => now - m.timestamp < MESSAGE_RETENTION_MS)

/-- `addToBuffer` (src/index.js:35-51). `tStamp` is the `Date.now()` that
becomes the stored timestamp; `tClean` is the `Date.now()` read inside
`cleanOldMessages`. The source pushes the timestamped copy, shifts one
entry from the head if the length exceeds `MAX_BUFFER_SIZE`, then runs the
age-based cleanup. -/
def addToBuffer (tStamp tClean : Int) (message : Message)
    (buffer : List BufferedMessage) : List BufferedMessage :=
  let messageWithTimestamp : BufferedMessage :=
    { msg := message, timestamp := tStamp }
  let pushed := buffer ++ [messageWithTimestamp]
  let shifted := if pushed.length > MAX_BUFFER_SIZE then pushed.tail else pushed
  cleanOldMessages tClean shifted

/-- `getRecentMessages` (src/index.js:64-68): entries with
`msg.timestamp > now - 10 * 60 * 1000`. -/
def getRecentMessages (now : Int) (buffer : List BufferedMessage) :
    List BufferedMessage :=
  let tenMinutesAgo := now - 10 * 60 * 1000
  buffer.filter (fun m => m.timestamp > tenMinutesAgo)

/-- The spec's parametric `recent(window)` query (spec §4.3), of which the
source's `getRecentMessages` is the instance `window = 600000`: entries
with `msg.timestamp > now - window`. -/
def getRecentMessagesWindow (now window : Int) (buffer : List BufferedMessage) :
    List BufferedMessage :=
  buffer.filter (fun m => m.timestamp > now - window)

/-- A sequence of inserts: each pair is a message with the time at which it
is inserted (the two `Date.now()` reads of one synchronous insert modelled
as equal). -/
def insertAll (inserts : List (Message × Int))
    (buffer : List BufferedMessage) : List BufferedMessage :=
  inserts.foldl (fun b p => addToBuffer p.2 p.2 p.1 b) buffer

/-- A concrete buffer at full capacity, used by witnesses. -/
def demoBuffer : List BufferedMessage :=
  List.replicate MAX_BUFFER_SIZE ⟨⟨0, ""⟩, 0⟩

theorem demoBuffer_length : demoBuffer.length = MAX_BUFFER_SIZE := by
  unfold demoBuffer
  rw [List.length_replicate]

/-- One insert into a buffer within capacity keeps it within capacity. -/
theorem addToBuffer_length_le (tStamp tClean : Int) (m : Message)
    (buffer : List BufferedMessage) (h : buffer.length ≤ MAX_BUFFER_SIZE) :
    (addToBuffer tStamp tClean m buffer).length ≤ MAX_BUFFER_SIZE := by
  unfold addToBuffer cleanOldMessages
  simp only
  split
  · exact le_trans (List.length_filter_le _ _)
      (by simp; omega)
  · rename_i hle
    exact le_trans (List.length_filter_le _ _) (by simp at hle ⊢; omega)

/-- Inserting while no entry can expire and capacity is not reached just
appends the timestamped copies in order. -/
theorem insertAll_append_of_le (lo hi : Int) :
    ∀ (ps : List (Message × Int)) (buffer : List BufferedMessage),
      buffer.length + ps.length ≤ MAX_BUFFER_SIZE →
      (∀ b ∈ buffer, lo ≤ b.timestamp ∧ b.timestamp ≤ hi) →
      (∀ p ∈ ps, lo ≤ p.2 ∧ p.2 ≤ hi) →
      hi - lo < MESSAGE_RETENTION_MS →
      insertAll ps buffer
        = buffer ++ ps.map (fun p => (⟨p.1, p.2⟩ : BufferedMessage)) := by
  intro ps
  induction ps with
  | nil => intro buffer _ _ _ _; simp [insertAll]
  | cons p ps ih =>
    intro buffer hlen hbuf hps hR
    have hp := hps p (List.mem_cons_self _ _)
    have hstep : addToBuffer p.2 p.2 p.1 buffer
        = buffer ++ [(⟨p.1, p.2⟩ : BufferedMessage)] := by
      unfold addToBuffer cleanOldMessages
      simp only
      have hnotgt : ¬ (buffer ++ [(⟨p.1, p.2⟩ : BufferedMessage)]).length
          > MAX_BUFFER_SIZE := by
        simp at hlen ⊢; omega
      rw [if_neg hnotgt]
      apply List.filter_eq_self.mpr
      intro b hb
      rcases List.mem_append.mp hb with hb | hb
      · have := hbuf b hb
        simp only [decide_eq_true_eq]
        omega
      · simp at hb
        subst hb
        simp only [decide_eq_true_eq]
        omega
    have hrec := ih (buffer ++ [(⟨p.1, p.2⟩ : BufferedMessage)])
      (by simp at hlen ⊢; omega)
      (by
        intro b hb
        rcases List.mem_append.mp hb with hb | hb
        · exact hbuf b hb
        · simp at hb; subst hb; exact hp)
      (fun q hq => hps q (List.mem_cons_of_mem _ hq)) hR
    calc insertAll (p :: ps) buffer
        = insertAll ps (addToBuffer p.2 p.2 p.1 buffer) := rfl
      _ = insertAll ps (buffer ++ [(⟨p.1, p.2⟩ : BufferedMessage)]) := by
          rw [hstep]
      _ = buffer ++ (p :: ps).map (fun p => (⟨p.1, p.2⟩ : BufferedMessage)) := by
          rw [hrec]; simp

/-- C2. After every sequence of inserts into the initially empty buffer the
length is at most `MAX_BUFFER_SIZE = 50`, and an insert into a buffer at
capacity drops the oldest (head) entry before appending the new one. -/
theorem capacity_invariant :
    (∀ inserts : List (Message × Int),
      (insertAll inserts []).length ≤ MAX_BUFFER_SIZE) ∧
    (∀ (tStamp tClean : Int) (m : Message) (buffer : List BufferedMessage),
      buffer.length = MAX_BUFFER_SIZE →
      addToBuffer tStamp tClean m buffer
        = cleanOldMessages tClean
            (buffer.tail ++ [(⟨m, tStamp⟩ : BufferedMessage)])) := by
  constructor
  · intro inserts
    suffices h : ∀ (ps : List (Message × Int)) (buffer : List BufferedMessage),
        buffer.length ≤ MAX_BUFFER_SIZE →
        (insertAll ps buffer).length ≤ MAX_BUFFER_SIZE by
      exact h inserts [] (by simp [MAX_BUFFER_SIZE])
    intro ps
    induction ps with
    | nil => intro buffer h; simpa [insertAll] using h
    | cons p ps ih =>
      intro buffer h
      exact ih _ (addToBuffer_length_le _ _ _ _ h)
  · intro tStamp tClean m buffer h
    unfold addToBuffer
    simp only
    have hgt : (buffer ++ [(⟨m, tStamp⟩ : BufferedMessage)]).length
        > MAX_BUFFER_SIZE := by
      simp [h]
    rw [if_pos hgt]
    congr 1
    cases buffer with
    | nil => simp [MAX_BUFFER_SIZE] at h
    | cons a l => rfl

/-- C2 witness: inserting into the concrete full buffer evicts its head. -/
theorem capacity_invariant_witness :
    addToBuffer 7 7 ⟨99, "x"⟩ demoBuffer
      = cleanOldMessages 7 (demoBuffer.tail ++ [(⟨⟨99, "x"⟩, 7⟩ : BufferedMessage)]) :=
  capacity_invariant.2 7 7 ⟨99, "x"⟩ demoBuffer demoBuffer_length

/-- C3. Immediately after an insert completes (at `tClean`, the time read by
the age-based cleanup that runs inside every insert, before it returns), no
remaining entry has age `≥ MESSAGE_RETENTION_MS`. -/
theorem retention_invariant (tStamp tClean : Int) (m : Message)
    (buffer : List BufferedMessage) :
    ∀ b ∈ addToBuffer tStamp tClean m buffer,
      tClean - b.timestamp < MESSAGE_RETENTION_MS := by
  intro b hb
  unfold addToBuffer cleanOldMessages at hb
  simp only at hb
  have := (List.mem_filter.mp hb).2
  simpa using this

/-- C3 witness: the freshly inserted entry satisfies the retention bound. -/
theorem retention_invariant_witness :
    5 - (⟨⟨1, "hello"⟩, 5⟩ : BufferedMessage).timestamp < MESSAGE_RETENTION_MS :=
  retention_invariant 5 5 ⟨1, "hello"⟩ []
    ⟨⟨1, "hello"⟩, 5⟩ (by decide)

/-- C4. Inserting `MAX_BUFFER_SIZE + 1 = 51` messages into an empty buffer,
all within the retention window, leaves exactly messages 2..51 with their
timestamps, in insertion order: the oldest, message 1, is evicted. -/
theorem fifo_eviction (ps : List (Message × Int)) (lo hi : Int)
    (hlen : ps.length = MAX_BUFFER_SIZE + 1)
    (hts : ∀ p ∈ ps, lo ≤ p.2 ∧ p.2 ≤ hi)
    (hR : hi - lo < MESSAGE_RETENTION_MS) :
    insertAll ps []
      = (ps.drop 1).map (fun p => (⟨p.1, p.2⟩ : BufferedMessage)) := by
  have hne : ps ≠ [] := by
    intro h; rw [h] at hlen; simp [MAX_BUFFER_SIZE] at hlen
  obtain ⟨qs, q, rfl⟩ : ∃ qs q, ps = qs ++ [q] :=
    ⟨ps.dropLast, ps.getLast hne, (ps.dropLast_append_getLast hne).symm⟩
  have hq : lo ≤ q.2 ∧ q.2 ≤ hi := hts q (by simp)
  have hqs_len : qs.length = MAX_BUFFER_SIZE := by
    simp at hlen; omega
  have hfirst : insertAll qs []
      = qs.map (fun p => (⟨p.1, p.2⟩ : BufferedMessage)) := by
    have := insertAll_append_of_le lo hi qs []
      (by simp [hqs_len]) (by intro b hb; simp at hb)
      (fun p hp => hts p (List.mem_append_left _ hp)) hR
    simpa using this
  have hsplit : insertAll (qs ++ [q]) []
      = addToBuffer q.2 q.2 q.1 (insertAll qs []) := by
    unfold insertAll
    rw [List.foldl_append]
    rfl
  rw [hsplit, hfirst]
  set f : Message × Int → BufferedMessage := fun p => ⟨p.1, p.2⟩ with hf
  have hmaplen : (qs.map f).length = MAX_BUFFER_SIZE := by
    rw [List.length_map, hqs_len]
  unfold addToBuffer
  simp only
  have hgt : ((qs.map f) ++ [(⟨q.1, q.2⟩ : BufferedMessage)]).length
      > MAX_BUFFER_SIZE := by
    rw [List.length_append, hmaplen]; simp
  rw [if_pos hgt]
  cases qs with
  | nil => simp [MAX_BUFFER_SIZE] at hqs_len
  | cons a l =>
    have htail : ((((a :: l).map f) ++ [(⟨q.1, q.2⟩ : BufferedMessage)]).tail)
        = (l.map f) ++ [(⟨q.1, q.2⟩ : BufferedMessage)] := by
      simp
    rw [htail]
    have hdrop : ((a :: l) ++ [q]).drop 1 = l ++ [q] := by simp
    rw [hdrop, List.map_append]
    unfold cleanOldMessages
    apply List.filter_eq_self.mpr
    intro b hb
    simp only [decide_eq_true_eq]
    rcases List.mem_append.mp hb with hb | hb
    · obtain ⟨p, hp, rfl⟩ := List.mem_map.mp hb
      have := hts p (List.mem_append_left _ (List.mem_cons_of_mem _ hp))
      simp only [hf]
      omega
    · simp at hb
      subst hb
      show q.2 - q.2 < MESSAGE_RETENTION_MS
      omega

/-- 51 distinct concrete messages, all inserted at time 0. -/
def fiftyOneInserts : List (Message × Int) :=
  (List.range (MAX_BUFFER_SIZE + 1)).map
    (fun i : Nat => ((⟨(i : Int), ""⟩ : Message), (0 : Int)))

/-- C4 witness: 51 concrete messages at time 0 leave messages 2..51. -/
theorem fifo_eviction_witness :
    insertAll fiftyOneInserts []
      = (fiftyOneInserts.drop 1).map
          (fun p => (⟨p.1, p.2⟩ : BufferedMessage)) :=
  fifo_eviction fiftyOneInserts 0 0
    (by unfold fiftyOneInserts; rw [List.length_map, List.length_range])
    (by
      intro p hp
      obtain ⟨i, _, rfl⟩ := List.mem_map.mp hp
      exact ⟨le_refl 0, le_refl 0⟩)
    (by decide)

/-- C5. `getRecentMessages` is the spec's `recent(window)` at the hardcoded
window of ten minutes; for every window, the query returns exactly the
entries of age strictly below the window, as an order-preserving
non-mutating sublist; with window 0 (and no future timestamps) it is
empty. -/
theorem recent_window_correct (now window : Int)
    (buffer : List BufferedMessage)
    (hpast : ∀ b ∈ buffer, b.timestamp ≤ now) :
    getRecentMessages now buffer = getRecentMessagesWindow now 600000 buffer ∧
    getRecentMessagesWindow now window buffer
      = buffer.filter (fun b => now - b.timestamp < window) ∧
    (getRecentMessagesWindow now window buffer).Sublist buffer ∧
    getRecentMessagesWindow now 0 buffer = [] := by
  refine ⟨rfl, ?_, List.filter_sublist _, ?_⟩
  · apply List.filter_congr
    intro b _
    rw [decide_eq_decide]
    constructor <;> (intro h; omega)
  · apply List.filter_eq_nil_iff.mpr
    intro b hb
    have := hpast b hb
    simp only [decide_eq_true_eq]
    omega

/-- C5 witness: the sync scenario buffer at query time 602000. -/
theorem recent_window_correct_witness :
    getRecentMessages 602000
        [⟨⟨1, "a"⟩, 0⟩, ⟨⟨2, "b"⟩, 1000⟩, ⟨⟨3, "c"⟩, 601000⟩]
      = getRecentMessagesWindow 602000 600000
        [⟨⟨1, "a"⟩, 0⟩, ⟨⟨2, "b"⟩, 1000⟩, ⟨⟨3, "c"⟩, 601000⟩] ∧
    getRecentMessagesWindow 602000 600000
        [⟨⟨1, "a"⟩, 0⟩, ⟨⟨2, "b"⟩, 1000⟩, ⟨⟨3, "c"⟩, 601000⟩]
      = List.filter (fun b => 602000 - b.timestamp < 600000)
        [⟨⟨1, "a"⟩, 0⟩, ⟨⟨2, "b"⟩, 1000⟩, ⟨⟨3, "c"⟩, 601000⟩] ∧
    (getRecentMessagesWindow 602000 600000
        [⟨⟨1, "a"⟩, 0⟩, ⟨⟨2, "b"⟩, 1000⟩, ⟨⟨3, "c"⟩, 601000⟩]).Sublist
        [⟨⟨1, "a"⟩, 0⟩, ⟨⟨2, "b"⟩, 1000⟩, ⟨⟨3, "c"⟩, 601000⟩] ∧
    getRecentMessagesWindow 602000 0
        [⟨⟨1, "a"⟩, 0⟩, ⟨⟨2, "b"⟩, 1000⟩, ⟨⟨3, "c"⟩, 601000⟩] = [] :=
  recent_window_correct 602000 600000
    [⟨⟨1, "a"⟩, 0⟩, ⟨⟨2, "b"⟩, 1000⟩, ⟨⟨3, "c"⟩, 601000⟩] (by decide)

example :
    addToBuffer 5 5 ⟨1, "hello"⟩ [] = [⟨⟨1, "hello"⟩, 5⟩] := by decide

example :
    getRecentMessages 602000
      [⟨⟨1, "a"⟩, 0⟩, ⟨⟨2, "b"⟩, 1000⟩, ⟨⟨3, "c"⟩, 601000⟩]
      = [⟨⟨3, "c"⟩, 601000⟩] := by decide

/-- The ack payloads of src/index.js:137-141 and 148-151:
`{success: true, messageId: data.id, timestamp: Date.now()}` or
`{success: false, error: 'Failed to process message'}`. -/
inductive AckResult where
  | success (messageId : Int) (timestamp : Int)
  | failure (error : String)
deriving DecidableEq, Repr

/-- Where an outbound event goes: `io.emit` reaches every connection,
`socket.emit` only the one socket. -/
inductive Target where
  | all
  | one (sid : Nat)
deriving DecidableEq, Repr

/-- The outbound events of the source: `user_count` (src/index.js:103,161),
`sync_messages` (src/index.js:110) and `receive_message` (src/index.js:132). -/
inductive OutEvent where
  | userCount (n : Nat)
  | syncMessages (ms : List BufferedMessage)
  | receiveMessage (m : Message)
deriving DecidableEq, Repr

/-- One outbound emission: an event sent to a target. -/
structure Emit where
  target : Target
  event : OutEvent
deriving DecidableEq, Repr

/-- The throw sites guarded by the try/catch of src/index.js:127-153:
`addToBuffer(data)` (the buffer insertion) and `io.emit(...)` (the
fan-out). `noFault` is the normal run. -/
inductive SendFault where
  | noFault
  | insertThrows
  | fanoutThrows
deriving DecidableEq, Repr

/-- Result of one `send_message` handler run: the buffer afterwards, the
emissions that completed, and every ack callback invocation in order. -/
structure SendOutcome where
  buffer : List BufferedMessage
  emits : List Emit
  acks : List AckResult
deriving DecidableEq, Repr

/-- The `send_message` handler (src/index.js:124-154). `tStamp` and
`tClean` are the two `Date.now()` reads inside `addToBuffer`; `tAck` is the
read at src/index.js:140 when building the success ack. `ack` is `none`
when the client supplied no callback and `some c` when it did, `c`
recording `typeof callback === 'function'`; both guards at
src/index.js:136 and 147 skip the invocation unless the callback is
callable. On a throw at either guarded site, control moves to the catch
block, which invokes the callback once with the failure payload; a throw
in `addToBuffer` happens before the buffer is touched, a throw in the
fan-out happens after the insertion completed. -/
def sendMessageHandler (tStamp tClean tAck : Int) (data : Message)
    (ack : Option Bool) (fault : SendFault)
    (buffer : List BufferedMessage) : SendOutcome :=
  let failAcks : List AckResult :=
    match ack with
    | some true => [AckResult.failure "Failed to process message"]
    | _ => []
  match fault with
  | SendFault.insertThrows => ⟨buffer, [], failAcks⟩
  | SendFault.fanoutThrows => ⟨addToBuffer tStamp tClean data buffer, [], failAcks⟩
  | SendFault.noFault =>
      ⟨addToBuffer tStamp tClean data buffer,
       [⟨Target.all, OutEvent.receiveMessage data⟩],
       match ack with
       | some true => [AckResult.success data.id tAck]
       | _ => []⟩

/-- The `connection` handler (src/index.js:99-112): broadcast the live
count, then query `getRecentMessages` and, only if the result is
non-empty, emit it as `sync_messages` to the connecting socket alone.
`count` is the transport's `io.engine.clientsCount` at that moment; `now`
is the `Date.now()` read inside `getRecentMessages`. -/
def connectionHandler (now : Int) (sid : Nat) (count : Nat)
    (buffer : List BufferedMessage) : List Emit :=
  let base := [⟨Target.all, OutEvent.userCount count⟩]
  let recentMessages := getRecentMessages now buffer
  if recentMessages.length > 0 then
    base ++ [⟨Target.one sid, OutEvent.syncMessages recentMessages⟩]
  else
    base

/-- The copy timestamped at insertion survives the insert whenever it is
within the retention window at cleanup time. -/
theorem mem_addToBuffer_self (tStamp tClean : Int) (m : Message)
    (buffer : List BufferedMessage)
    (hR : tClean - tStamp < MESSAGE_RETENTION_MS) :
    (⟨m, tStamp⟩ : BufferedMessage) ∈ addToBuffer tStamp tClean m buffer := by
  unfold addToBuffer cleanOldMessages
  simp only
  apply List.mem_filter.mpr
  refine ⟨?_, by simpa using hR⟩
  split
  · rename_i hgt
    cases buffer with
    | nil => simp [MAX_BUFFER_SIZE] at hgt
    | cons a l => simp
  · simp

/-- C1. A successful `send_message` with a callable callback invokes the
ack callback exactly once, with `success: true`, `messageId` equal to the
client-chosen `data.id`, and the server-assigned timestamp, which is at
least the time the send was issued (the clock reads during handling are
monotone and at or after the issue time). -/
theorem ack_success (tIssue tStamp tClean tAck : Int) (data : Message)
    (buffer : List BufferedMessage)
    (h1 : tIssue ≤ tStamp) (h2 : tStamp ≤ tClean) (h3 : tClean ≤ tAck) :
    (sendMessageHandler tStamp tClean tAck data (some true)
        SendFault.noFault buffer).acks
      = [AckResult.success data.id tAck]
    ∧ tIssue ≤ tAck := by
  exact ⟨rfl, by omega⟩

/-- C1 witness: a concrete successful send acks once with the id and a
timestamp at or after the issue time. -/
theorem ack_success_witness :
    (sendMessageHandler 3 4 5 ⟨42, "hi"⟩ (some true)
        SendFault.noFault []).acks
      = [AckResult.success 42 5]
    ∧ (2 : Int) ≤ 5 :=
  ack_success 2 3 4 5 ⟨42, "hi"⟩ [] (by decide) (by decide) (by decide)

/-- C6. When the buffer insertion or the fan-out throws, a callable ack
callback is invoked exactly once, with `success: false` and the generic
error string; the handler still returns a normal outcome (the throw is
caught at the per-message boundary and does not escape). -/
theorem ack_failure (tStamp tClean tAck : Int) (data : Message)
    (fault : SendFault) (buffer : List BufferedMessage)
    (h : fault ≠ SendFault.noFault) :
    (sendMessageHandler tStamp tClean tAck data (some true)
        fault buffer).acks
      = [AckResult.failure "Failed to process message"] := by
  cases fault with
  | noFault => exact absurd rfl h
  | insertThrows => rfl
  | fanoutThrows => rfl

/-- C6 witness: a concrete send whose fan-out throws acks once with the
failure payload. -/
theorem ack_failure_witness :
    (sendMessageHandler 3 4 5 ⟨42, "hi"⟩ (some true)
        SendFault.fanoutThrows []).acks
      = [AckResult.failure "Failed to process message"] :=
  ack_failure 3 4 5 ⟨42, "hi"⟩ SendFault.fanoutThrows [] (by decide)

/-- C9. The `receive_message` broadcast of a successful send carries the
inbound record `data` itself, a `Message` with no timestamp field, sent to
all connections; the buffer receives a separate copy extended with the
server-assigned timestamp, leaving the broadcast payload untouched. -/
theorem broadcast_unmodified (tStamp tClean tAck : Int) (data : Message)
    (ack : Option Bool) (buffer : List BufferedMessage)
    (hR : tClean - tStamp < MESSAGE_RETENTION_MS) :
    (sendMessageHandler tStamp tClean tAck data ack
        SendFault.noFault buffer).emits
      = [⟨Target.all, OutEvent.receiveMessage data⟩]
    ∧ (⟨data, tStamp⟩ : BufferedMessage) ∈
        (sendMessageHandler tStamp tClean tAck data ack
            SendFault.noFault buffer).buffer :=
  ⟨rfl, mem_addToBuffer_self tStamp tClean data buffer hR⟩

/-- C9 witness: a concrete send broadcasts the plain record and buffers
the timestamped copy. -/
theorem broadcast_unmodified_witness :
    (sendMessageHandler 3 4 5 ⟨42, "hi"⟩ none
        SendFault.noFault []).emits
      = [⟨Target.all, OutEvent.receiveMessage ⟨42, "hi"⟩⟩]
    ∧ (⟨⟨42, "hi"⟩, 3⟩ : BufferedMessage) ∈
        (sendMessageHandler 3 4 5 ⟨42, "hi"⟩ none
            SendFault.noFault []).buffer :=
  broadcast_unmodified 3 4 5 ⟨42, "hi"⟩ none [] (by decide)

/-- C10. A send whose buffer insertion completed but whose fan-out throws
acks the sender with the failure payload, yet the timestamped copy stays
in the buffer — no rollback — and is returned by any later
`getRecentMessages` query at a time when its age is inside the ten-minute
sync window (given it was inside the retention window when inserted). -/
theorem no_rollback (tStamp tClean tAck : Int) (data : Message)
    (buffer : List BufferedMessage)
    (hR : tClean - tStamp < MESSAGE_RETENTION_MS) :
    (sendMessageHandler tStamp tClean tAck data (some true)
        SendFault.fanoutThrows buffer).acks
      = [AckResult.failure "Failed to process message"]
    ∧ (⟨data, tStamp⟩ : BufferedMessage) ∈
        (sendMessageHandler tStamp tClean tAck data (some true)
            SendFault.fanoutThrows buffer).buffer
    ∧ ∀ now : Int, tStamp > now - 600000 →
        (⟨data, tStamp⟩ : BufferedMessage) ∈
          getRecentMessages now
            (sendMessageHandler tStamp tClean tAck data (some true)
                SendFault.fanoutThrows buffer).buffer := by
  refine ⟨rfl, mem_addToBuffer_self tStamp tClean data buffer hR, ?_⟩
  intro now hnow
  unfold getRecentMessages
  simp only
  exact List.mem_filter.mpr
    ⟨mem_addToBuffer_self tStamp tClean data buffer hR, by simpa using hnow⟩

/-- C10 witness: a concrete failed fan-out leaves the message buffered and
replayable. -/
theorem no_rollback_witness :
    (sendMessageHandler 3 4 5 ⟨42, "hi"⟩ (some true)
        SendFault.fanoutThrows []).acks
      = [AckResult.failure "Failed to process message"]
    ∧ (⟨⟨42, "hi"⟩, 3⟩ : BufferedMessage) ∈
        (sendMessageHandler 3 4 5 ⟨42, "hi"⟩ (some true)
            SendFault.fanoutThrows []).buffer
    ∧ ∀ now : Int, (3 : Int) > now - 600000 →
        (⟨⟨42, "hi"⟩, 3⟩ : BufferedMessage) ∈
          getRecentMessages now
            (sendMessageHandler 3 4 5 ⟨42, "hi"⟩ (some true)
                SendFault.fanoutThrows []).buffer :=
  no_rollback 3 4 5 ⟨42, "hi"⟩ [] (by decide)

/-- C7. The connection handler emits a `sync_messages` event only when the
recent-history query is non-empty, and any such emission goes to the new
socket alone and carries exactly the query result; in the concrete
scenario with inserts at t=0, t=1000 and t=601000, a connection at
t=602000 receives exactly the message inserted at t=601000. -/
theorem sync_on_connect (now : Int) (sid count : Nat)
    (buffer : List BufferedMessage) :
    (getRecentMessages now buffer = [] →
      connectionHandler now sid count buffer
        = [⟨Target.all, OutEvent.userCount count⟩])
    ∧ (∀ (t : Target) (ms : List BufferedMessage),
        (⟨t, OutEvent.syncMessages ms⟩ : Emit)
            ∈ connectionHandler now sid count buffer →
        t = Target.one sid ∧ ms = getRecentMessages now buffer ∧ ms ≠ [])
    ∧ connectionHandler 602000 sid count
        (insertAll [(⟨1, "a"⟩, 0), (⟨2, "b"⟩, 1000), (⟨3, "c"⟩, 601000)] [])
      = [⟨Target.all, OutEvent.userCount count⟩,
         ⟨Target.one sid, OutEvent.syncMessages [⟨⟨3, "c"⟩, 601000⟩]⟩] := by
  refine ⟨?_, ?_, ?_⟩
  · intro h
    unfold connectionHandler
    rw [h]
    simp
  · intro t ms hmem
    unfold connectionHandler at hmem
    simp only at hmem
    split at hmem
    · rename_i hlen
      simp only [List.mem_append, List.mem_singleton, List.mem_cons,
        List.not_mem_nil, or_false] at hmem
      rcases hmem with hmem | hmem
      · exact absurd (congrArg Emit.event hmem) (by simp)
      · have ht : t = Target.one sid := congrArg Emit.target hmem
        have hev : OutEvent.syncMessages ms
            = OutEvent.syncMessages (getRecentMessages now buffer) :=
          congrArg Emit.event hmem
        have hms : ms = getRecentMessages now buffer := by
          injection hev
        refine ⟨ht, hms, ?_⟩
        intro hnil
        rw [hms] at hnil
        rw [hnil] at hlen
        simp at hlen
    · simp only [List.mem_singleton] at hmem
      exact absurd (congrArg Emit.event hmem) (by simp)
  · have hbuf : insertAll [(⟨1, "a"⟩, 0), (⟨2, "b"⟩, 1000), (⟨3, "c"⟩, 601000)] []
        = [⟨⟨1, "a"⟩, 0⟩, ⟨⟨2, "b"⟩, 1000⟩, ⟨⟨3, "c"⟩, 601000⟩] := by decide
    rw [hbuf]
    have hrec : getRecentMessages 602000
        [⟨⟨1, "a"⟩, 0⟩, ⟨⟨2, "b"⟩, 1000⟩, ⟨⟨3, "c"⟩, 601000⟩]
        = [⟨⟨3, "c"⟩, 601000⟩] := by decide
    unfold connectionHandler
    rw [hrec]
    simp

/-- C7 witness: in the concrete scenario the sync emission present in the
handler output targets the new socket and equals the window query. -/
theorem sync_on_connect_witness :
    Target.one 7 = Target.one 7
    ∧ ([⟨⟨3, "c"⟩, 601000⟩] : List BufferedMessage)
        = getRecentMessages 602000
            [⟨⟨1, "a"⟩, 0⟩, ⟨⟨2, "b"⟩, 1000⟩, ⟨⟨3, "c"⟩, 601000⟩]
    ∧ ([⟨⟨3, "c"⟩, 601000⟩] : List BufferedMessage) ≠ [] :=
  (sync_on_connect 602000 7 3
      [⟨⟨1, "a"⟩, 0⟩, ⟨⟨2, "b"⟩, 1000⟩, ⟨⟨3, "c"⟩, 601000⟩]).2.1
    (Target.one 7) [⟨⟨3, "c"⟩, 601000⟩] (by decide)

/-- A transport-level connection lifecycle event. -/
inductive ConnEvent where
  | connect
  | disconnect
deriving DecidableEq, Repr

/-- The number of connects in a trace (the spec's N). -/
def countConnects : List ConnEvent → Nat
  | [] => 0
  | ConnEvent.connect :: evs => countConnects evs + 1
  | ConnEvent.disconnect :: evs => countConnects evs

/-- The number of disconnects in a trace (the spec's M). -/
def countDisconnects : List ConnEvent → Nat
  | [] => 0
  | ConnEvent.connect :: evs => countDisconnects evs
  | ConnEvent.disconnect :: evs => countDisconnects evs + 1

/-- Modelled from the spec: the live-connection count
(`io.engine.clientsCount`) is maintained by the Socket.IO transport, which
is not part of src/; per spec §4.1, `register()` increments the live count
when the transport accepts a connection and `deregister(id)` decrements it
on disconnect, before the handlers of src/index.js run. Each handler then
broadcasts the count to all connections
(`io.emit('user_count', io.engine.clientsCount)`, src/index.js:103 and
161). `runRegistry` folds a trace from a given live count and returns the
final count together with the broadcasts in event order. -/
def runRegistry : List ConnEvent → Nat → Nat × List Emit
  | [], n => (n, [])
  | ConnEvent.connect :: evs, n =>
      let m := n + 1
      let r := runRegistry evs m
      (r.1, ⟨Target.all, OutEvent.userCount m⟩ :: r.2)
  | ConnEvent.disconnect :: evs, n =>
      let m := n - 1
      let r := runRegistry evs m
      (r.1, ⟨Target.all, OutEvent.userCount m⟩ :: r.2)

/-- Running a valid trace (no prefix disconnects more connections than are
live) from count `n` ends at `n + N − M` and broadcasts the then-current
live count to all connections after every event. -/
theorem runRegistry_spec :
    ∀ (evs : List ConnEvent) (n : Nat),
      (∀ k, k ≤ evs.length →
        countDisconnects (evs.take k) ≤ n + countConnects (evs.take k)) →
      (runRegistry evs n).1
        = n + countConnects evs - countDisconnects evs
      ∧ (runRegistry evs n).2.length = evs.length
      ∧ ∀ i, i < evs.length →
          (runRegistry evs n).2.getD i ⟨Target.all, OutEvent.userCount 0⟩
            = ⟨Target.all, OutEvent.userCount
                (n + countConnects (evs.take (i + 1))
                   - countDisconnects (evs.take (i + 1)))⟩ := by
  intro evs
  induction evs with
  | nil =>
    intro n _
    refine ⟨by simp [runRegistry, countConnects, countDisconnects], by simp [runRegistry], ?_⟩
    intro i hi
    simp at hi
  | cons e evs ih =>
    intro n hvalid
    cases e with
    | connect =>
      have hvalid' : ∀ k, k ≤ evs.length →
          countDisconnects (evs.take k) ≤ (n + 1) + countConnects (evs.take k) := by
        intro k hk
        have := hvalid (k + 1) (by simpa using Nat.succ_le_succ hk)
        simp [countConnects, countDisconnects, List.take_succ_cons] at this
        omega
      obtain ⟨ih1, ih2, ih3⟩ := ih (n + 1) hvalid'
      refine ⟨?_, ?_, ?_⟩
      · show (runRegistry evs (n + 1)).1 = _
        rw [ih1]
        simp [countConnects, countDisconnects]
        omega
      · show (⟨Target.all, OutEvent.userCount (n + 1)⟩ :: (runRegistry evs (n + 1)).2).length = _
        simp [ih2]
      · intro i hi
        cases i with
        | zero =>
          show (⟨Target.all, OutEvent.userCount (n + 1)⟩ : Emit) = _
          simp [countConnects, countDisconnects, List.take_succ_cons]
        | succ j =>
          have hj : j < evs.length := by simp at hi; omega
          show ((runRegistry evs (n + 1)).2).getD j _ = _
          rw [ih3 j hj]
          simp only [Emit.mk.injEq, OutEvent.userCount.injEq,
            List.take_succ_cons, countConnects, countDisconnects]
          refine ⟨trivial, ?_⟩
          omega
    | disconnect =>
      have hn : 1 ≤ n := by
        have := hvalid 1 (by simp)
        simpa [countConnects, countDisconnects, List.take_succ_cons] using this
      have hvalid' : ∀ k, k ≤ evs.length →
          countDisconnects (evs.take k) ≤ (n - 1) + countConnects (evs.take k) := by
        intro k hk
        have := hvalid (k + 1) (by simpa using Nat.succ_le_succ hk)
        simp [countConnects, countDisconnects, List.take_succ_cons] at this
        omega
      obtain ⟨ih1, ih2, ih3⟩ := ih (n - 1) hvalid'
      refine ⟨?_, ?_, ?_⟩
      · show (runRegistry evs (n - 1)).1 = _
        rw [ih1]
        simp [countConnects, countDisconnects]
        omega
      · show (⟨Target.all, OutEvent.userCount (n - 1)⟩ :: (runRegistry evs (n - 1)).2).length = _
        simp [ih2]
      · intro i hi
        cases i with
        | zero =>
          show (⟨Target.all, OutEvent.userCount (n - 1)⟩ : Emit) = _
          simp only [Emit.mk.injEq, OutEvent.userCount.injEq,
            List.take_succ_cons, countConnects, countDisconnects]
          refine ⟨trivial, ?_⟩
          omega
        | succ j =>
          have hj : j < evs.length := by simp at hi; omega
          show ((runRegistry evs (n - 1)).2).getD j _ = _
          rw [ih3 j hj]
          simp only [Emit.mk.injEq, OutEvent.userCount.injEq,
            List.take_succ_cons, countConnects, countDisconnects]
          refine ⟨trivial, ?_⟩
          omega

/-- C8. From an empty registry, after any valid interleaving of connects
and disconnects (no prefix disconnects more than it has connected, the
transport's guarantee that only live connections disconnect), the live
count equals N − M, and after each event a `user_count` broadcast to all
connections carried the then-current live count. -/
theorem count_consistency (evs : List ConnEvent)
    (hvalid : ∀ k, k ≤ evs.length →
      countDisconnects (evs.take k) ≤ countConnects (evs.take k)) :
    (runRegistry evs 0).1 = countConnects evs - countDisconnects evs
    ∧ (runRegistry evs 0).2.length = evs.length
    ∧ ∀ i, i < evs.length →
        (runRegistry evs 0).2.getD i ⟨Target.all, OutEvent.userCount 0⟩
          = ⟨Target.all, OutEvent.userCount
              (countConnects (evs.take (i + 1))
                 - countDisconnects (evs.take (i + 1)))⟩ := by
  have h := runRegistry_spec evs 0 (by simpa using hvalid)
  simpa using h

/-- C8 witness: the trace connect, connect, disconnect, connect ends at
count 2 and its third broadcast carries count 1. -/
theorem count_consistency_witness :
    (runRegistry [ConnEvent.connect, ConnEvent.connect,
        ConnEvent.disconnect, ConnEvent.connect] 0).1
      = countConnects [ConnEvent.connect, ConnEvent.connect,
          ConnEvent.disconnect, ConnEvent.connect]
        - countDisconnects [ConnEvent.connect, ConnEvent.connect,
            ConnEvent.disconnect, ConnEvent.connect]
    ∧ (runRegistry [ConnEvent.connect, ConnEvent.connect,
        ConnEvent.disconnect, ConnEvent.connect] 0).2.getD 2
          ⟨Target.all, OutEvent.userCount 0⟩
        = ⟨Target.all, OutEvent.userCount
            (countConnects ([ConnEvent.connect, ConnEvent.connect,
                ConnEvent.disconnect, ConnEvent.connect].take 3)
               - countDisconnects ([ConnEvent.connect, ConnEvent.connect,
                  ConnEvent.disconnect, ConnEvent.connect].take 3))⟩ := by
  have h := count_consistency
    [ConnEvent.connect, ConnEvent.connect,
      ConnEvent.disconnect, ConnEvent.connect] (by decide)
  exact ⟨h.1, h.2.2 2 (by decide)⟩

end FreeChat
